import Mathlib

/-!
Verification development for the WRFlux budget engine
(`wrflux/tools.py` of the WRFlux repository).

The file shallowly embeds the parts of `tools.py` that the statements
below are about:

* the staggering algebra `stagger` / `post_stagger` / `destagger` / `diff`
  (tools.py lines 572-746), modelled on one-dimensional arrays of
  optional rationals (`none` models NaN / a missing value, mirroring how
  NaN propagates through numpy arithmetic);
* the advective-tendency decomposition `adv_tend` (lines 1306-1542),
  modelled per direction on 1-d slices along the differencing axis
  (other axes of the xarray objects are spectators of each operation),
  for the `hor_avg=False` code path;
* budget-method parsing and validation (`get_budget_method`,
  lines 861-883, and the `dz_out` checks of `calc_tendencies_core`,
  lines 1988-1994);
* the tiling scheduler `create_tiles` (lines 2135-2180) and the control
  flow of `calc_tendencies` / `calc_tendencies_core`
  (lines 1713-1943).

Rationals stand in for IEEE doubles; `none` stands in for NaN.
-/

/-! ## Optional-value arithmetic (NaN propagation of numpy) -/

/-- A floating-point sample; `none` models NaN / missing. -/
abbrev F := Option ℚ

/-- A one-dimensional labelled array (one axis of an xarray object). -/
abbrev Arr := List F

def oadd : F → F → F
  | some a, some b => some (a + b)
  | _, _ => none

def osub : F → F → F
  | some a, some b => some (a - b)
  | _, _ => none

def omul : F → F → F
  | some a, some b => some (a * b)
  | _, _ => none

def odiv : F → F → F
  | some a, some b => some (a / b)
  | _, _ => none

/-- Scalar times array element. -/
def oscale (c : ℚ) : F → F
  | some a => some (c * a)
  | none => none

/-- Unary minus on an array element. -/
def oneg : F → F
  | some a => some (-a)
  | none => none

/-! ## One-dimensional array primitives (xarray shift / roll / indexing) -/

/-- Element lookup; out-of-range is missing. -/
def get1 : Arr → ℕ → F
  | [], _ => none
  | a :: _, 0 => a
  | _ :: t, i + 1 => get1 t i

/-- First element (`data[{dim: 0}]`). -/
def head1 : Arr → F
  | [] => none
  | a :: _ => a

/-- Last element (`data[{dim: -1}]`). -/
def last1 : Arr → F
  | [] => none
  | [a] => a
  | _ :: a :: t => last1 (a :: t)

/-- Second-to-last element (`data[{dim: -2}]`). -/
def last2 : Arr → F
  | [] => none
  | [_] => none
  | [a, _] => a
  | _ :: a :: b :: t => last2 (a :: b :: t)

/-- Overwrite the first element (`data[{dim: 0}] = v`). -/
def set_first : Arr → F → Arr
  | [], _ => []
  | _ :: t, v => v :: t

/-- Overwrite the last element (`data[{dim: -1}] = v`). -/
def set_last : Arr → F → Arr
  | [], _ => []
  | [_], v => [v]
  | a :: b :: t, v => a :: set_last (b :: t) v

/-- Translation of `data.shift({dim: 1})`: shifted down by one,
the first entry becomes NaN. -/
def shift1 : Arr → Arr
  | [] => []
  | l => none :: l.dropLast

/-- Translation of `data.shift({dim: -1})`: shifted up by one,
the last entry becomes NaN. -/
def shiftm1 : Arr → Arr
  | [] => []
  | _ :: t => t ++ [none]

/-- Translation of `data.roll({dim: 1}, roll_coords=False)`: periodic
shift, the first entry receives the value of the last. -/
def roll1 : Arr → Arr
  | [] => []
  | l => last1 l :: l.dropLast

/-- Pointwise combination of two arrays of equal length
(xarray arithmetic between aligned arrays). -/
def zip1 (f : F → F → F) : Arr → Arr → Arr := List.zipWith f

/-! ## Staggering algebra (tools.py lines 572-746) -/

/-- Dimensions that never use periodic wrap-around in `diff`
(tools.py line 725). -/
def vert_time_dims : List String := ["bottom_top", "z", "bottom_top_stag", "z_stag", "Time"]

/-- Boolean prefix test on character lists. -/
def isPfxOf : List Char → List Char → Bool
  | [], _ => true
  | _ :: _, [] => false
  | p :: ps, c :: cs => p == c && isPfxOf ps cs

/-- Boolean infix (substring) test on character lists. -/
def isInfxOf (pat : List Char) : List Char → Bool
  | [] => pat.isEmpty
  | b :: t => isPfxOf pat (b :: t) || isInfxOf pat t

/-- The substring test `"_stag" in dim` of tools.py. -/
def strContainsStag (dim : String) : Bool :=
  isInfxOf ("_stag".data) dim.data

/-- Vertical extrapolation constants (WRF fields CF1, CF2, CF3, CFN, CFN1),
passed to `stagger` via `grid[stagger_const]`. -/
structure VertConst where
  CF1 : ℚ
  CF2 : ℚ
  CF3 : ℚ
  CFN : ℚ
  CFN1 : ℚ

/-- Translation of `post_stagger` (tools.py lines 613-664).  After
staggering, the data is reindexed to the staggered coordinate (one more
point, filled with NaN) and boundary values are filled: on the vertical
axis with the supplied extrapolation constants (if any), on a periodic
axis by copying the first point into the last, otherwise the first point
is set to NaN.  `data` is the unstaggered input, used only for the
vertical extrapolation. -/
def post_stagger (data_stag : Arr) (dim : String) (cyclic : Bool)
    (data : Arr) (interp_const : Option VertConst) : Arr :=
  let out := data_stag ++ [none]
  if dim == "bottom_top" then
    match interp_const with
    | none => out
    | some c =>
      let btm := oadd (oadd (oscale c.CF1 (head1 data)) (oscale c.CF2 (head1 data.tail)))
                   (oscale c.CF3 (head1 data.tail.tail))
      let top := oadd (oscale c.CFN (last1 data)) (oscale c.CFN1 (last2 data))
      set_last (set_first out btm) top
  else if cyclic then
    set_last out (head1 out)
  else
    set_first out none

/-- Translation of `stagger` (tools.py lines 572-610): two-point average
onto the staggered grid.  On the vertical axis the average is weighted by
the arrays FNM/FNP, horizontally it is the plain mean with periodic wrap
feeding the first point. -/
def stagger (data : Arr) (dim : String) (FNM FNP : Arr) (cyclic : Bool)
    (interp_const : Option VertConst) : Arr :=
  let data_stag :=
    if dim == "bottom_top" then
      zip1 oadd (zip1 omul data FNM) (zip1 omul (shift1 data) FNP)
    else
      zip1 (fun a b => oscale (1/2) (oadd a b)) data (roll1 data)
  post_stagger data_stag dim cyclic data interp_const

/-- Translation of `destagger` (tools.py lines 667-697): two-point average
back to the unstaggered grid, dropping the last coordinate. -/
def destagger (data : Arr) : Arr :=
  (zip1 (fun a b => oscale (1/2) (oadd a b)) data (shiftm1 data)).dropLast

/-- Translation of `diff` (tools.py lines 700-746): first-order difference.
Vertical and time axes always use the one-sided backward difference; other
axes wrap periodically when `cyclic` holds.  Staggered-to-unstaggered
differences drop the lower boundary, unstaggered-to-staggered ones get the
`post_stagger` boundary fill. -/
def diff (data : Arr) (dim : String) (cyclic : Bool) : Arr :=
  let data_s := if vert_time_dims.contains dim || !cyclic then shift1 data else roll1 data
  let out := zip1 osub data data_s
  if strContainsStag dim then
    out.tail
  else
    post_stagger out dim cyclic [] none

/-! ## Advective tendency decomposition (tools.py lines 1306-1542)

Each direction of `adv_tend` is modelled on two-dimensional slices: the
inner lists run along the differencing axis of that direction, the outer
list is a spectator index (the vertical level for the horizontal
directions; for the vertical direction the spectators are dropped and a
single column is used).  The embedding covers the `hor_avg=False` code
path; `force_2nd_adv` only changes which upstream fields feed
`var_stag`/`tot_flux`, which are inputs here. -/

/-- A two-dimensional slice: outer index is a spectator axis. -/
abbrev Grid2 := List Arr

def amap (f : F → F) : Arr → Arr := List.map f

/-- Unary minus on an array. -/
def aneg : Arr → Arr := amap oneg

/-- Division of an array by a scalar. -/
def adivS (a : Arr) (c : ℚ) : Arr := amap (fun v => odiv v (some c)) a

/-- The constant `g = 9.81` of tools.py line 72. -/
def gq : ℚ := 981/100

def dimBT : String := "bottom_top"

def dimBTS : String := "bottom_top_stag"

/-- The per-direction data of the horizontal flux-divergence loop of
`adv_tend` (tools.py lines 1464-1494).  `fluxUnstag` records whether the
flux is unstaggered in its own direction (`d in flux[D].dims`);
`fac_rho`/`fac_mu` are the two candidate density factors
`stagger_like(RHOD_MEAN, ...)` / `stagger_like(build_mu(MUT_MEAN), ...)`
of lines 1480-1490, already staggered to the flux grid; `mfflx`, `mfX`,
`mfY` are the map-scale factors; `rho_stag`/`mu_stag` are
`RHOD_STAG_MEAN`/`MU_STAG_MEAN` on the tendency grid (lines 1509-1513). -/
structure HorParams where
  dimBase : String
  cyc : Bool
  fluxUnstag : Bool
  fac_rho : Grid2
  fac_mu : Grid2
  mfflx : Grid2
  mfX : Grid2
  mfY : Grid2
  dx : ℚ
  rho_stag : Grid2
  mu_stag : Grid2

/-- Fluxes or tendencies in the three directions X, Y, Z. -/
structure Triple where
  X : Grid2
  Y : Grid2
  Z : Arr

/-- The decomposition components of `adv_tend`: resolved total, mean,
and resolved turbulent. -/
structure Comps (α : Type) where
  adv_r : α
  mean : α
  trb_r : α

/-- Inputs of `adv_tend` (tools.py lines 1306-1542) for one variable and
one budget method, restricted to `hor_avg=False`.  `var_stag` is the
staggered variable (lines 1361-1376), `vel_stag_*` the mean velocities
staggered to the variable grid (`stagger_like(vmean[d], ref=var_stag[d])`,
line 1435), `trb` the explicitly resolved turbulent fluxes when all of
`F{VAR}{vel}_TRB_MEAN` exist upstream (lines 1441-1453), `corr*` the
Cartesian correction fluxes on the vertical flux grid (lines 1400-1405),
`rhod8z` the density staggered to the vertical flux grid (line 1396),
`DNW`/`DN` the vertical level spacings (`DN` reindexed to full levels,
so its last entry is NaN), and `mu_stag_Z` is `MU_STAG_MEAN` on the
vertical tendency grid. -/
structure AdvInputs where
  isW : Bool
  cartesian : Bool
  dz_out : Bool
  tot_flux : Triple
  var_stag : Triple
  vel_stag_X : Grid2
  vel_stag_Y : Grid2
  vel_stag_Z : Arr
  trb : Option Triple
  corrX : Arr
  corrY : Arr
  corrT : Arr
  rhod8z : Arr
  hx : HorParams
  hy : HorParams
  DNW : Arr
  DN : Arr
  mu_stag_Z : Arr

/-- Horizontal flux-divergence of one direction (tools.py line 1494):
`-diff(fac * flux[D] / mf_flx, ds, ..., cyclic=cyc) * mf["X"] * mf["Y"] / dx`,
applied on every spectator row.  The division by the density factor of
lines 1509-1513 is applied in `adv_comp_tend`. -/
def hor_tend (dz_out : Bool) (p : HorParams) (flux : Grid2) : Grid2 :=
  let fac := if dz_out then p.fac_rho else p.fac_mu
  let ds := if p.fluxUnstag then p.dimBase else p.dimBase ++ "_stag"
  let integ := List.zipWith (zip1 odiv) (List.zipWith (zip1 omul) fac flux) p.mfflx
  let der := List.map (fun r => diff r ds p.cyc) integ
  let numer := List.zipWith (zip1 omul)
    (List.zipWith (zip1 omul) (List.map aneg der) p.mfX) p.mfY
  List.map (fun r => adivS r p.dx) numer

/-- The advective tendency computed from one flux component
(the body of the `for comp, flux in fluxes.items()` loop of
tools.py lines 1455-1515, with `hor_avg=False`): horizontal divergences,
the vertical divergence with the special surface/top treatment of the
vertical-velocity budget (lines 1496-1502), the multiplication by `-g`
(line 1508) and the final division by the density factor
(lines 1509-1513). -/
def adv_comp_tend (inp : AdvInputs) (flux : Triple) : Triple :=
  let advX := hor_tend inp.dz_out inp.hx flux.X
  let advY := hor_tend inp.dz_out inp.hy flux.Y
  let fz := zip1 omul inp.rhod8z flux.Z
  let advZraw :=
    if inp.isW then
      let a := zip1 odiv (aneg (diff fz dimBT false)) inp.DN
      let a := set_first a (some 0)
      set_last a (odiv (oscale 2 (last1 fz)) (last2 inp.DN))
    else
      zip1 odiv (aneg (diff fz dimBTS false)) inp.DNW
  let advZ := amap (fun v => omul v (some (-gq))) advZraw
  { X := List.zipWith (zip1 odiv) advX (if inp.dz_out then inp.hx.rho_stag else inp.hx.mu_stag),
    Y := List.zipWith (zip1 odiv) advY (if inp.dz_out then inp.hy.rho_stag else inp.hy.mu_stag),
    Z := zip1 odiv advZ inp.mu_stag_Z }

/-- The resolved total flux (tools.py lines 1394-1410): the stored
advective fluxes; for non-Cartesian budget methods the Cartesian
corrections are removed from the vertical flux. -/
def adv_total_flux (inp : AdvInputs) : Triple :=
  if inp.cartesian then inp.tot_flux
  else { inp.tot_flux with
         Z := zip1 osub inp.tot_flux.Z
           (zip1 odiv (zip1 oadd (zip1 oadd inp.corrX inp.corrY) inp.corrT) inp.rhod8z) }

/-- Set every entry of an array to `0.` (a whole-slice assignment). -/
def zero_arr (a : Arr) : Arr := a.map (fun _ => some 0)

/-- Zero the first spectator row (`vel_stag[{"bottom_top_stag": 0}] = 0`,
tools.py line 1437). -/
def zeroRow0 : Grid2 → Grid2
  | [] => []
  | r :: t => zero_arr r :: t

/-- The mean advective flux (tools.py lines 1429-1438):
`var_stag[d] * stagger_like(vmean[d], ...)`, with the first vertical
level of the staggered horizontal velocity zeroed for the
vertical-velocity budget. -/
def adv_mean_flux (inp : AdvInputs) : Triple :=
  let velX := if inp.isW then zeroRow0 inp.vel_stag_X else inp.vel_stag_X
  let velY := if inp.isW then zeroRow0 inp.vel_stag_Y else inp.vel_stag_Y
  { X := List.zipWith (zip1 omul) inp.var_stag.X velX,
    Y := List.zipWith (zip1 omul) inp.var_stag.Y velY,
    Z := zip1 omul inp.var_stag.Z inp.vel_stag_Z }

/-- Pointwise difference of two flux or tendency triples. -/
def tripleSub (a b : Triple) : Triple :=
  { X := List.zipWith (zip1 osub) a.X b.X,
    Y := List.zipWith (zip1 osub) a.Y b.Y,
    Z := zip1 osub a.Z b.Z }

/-- Translation of `adv_tend` (tools.py lines 1306-1542, `hor_avg=False`):
returns the decomposed fluxes and the decomposed tendencies.  When
explicit resolved turbulent fluxes are present upstream they are used
directly (lines 1441-1453); otherwise the turbulent component is
recovered as the residual total minus mean (lines 1528-1534). -/
def adv_tend (inp : AdvInputs) : Comps Triple × Comps Triple :=
  let tot := adv_total_flux inp
  let mean := adv_mean_flux inp
  match inp.trb with
  | some t =>
    ({ adv_r := tot, mean := mean, trb_r := t },
     { adv_r := adv_comp_tend inp tot, mean := adv_comp_tend inp mean,
       trb_r := adv_comp_tend inp t })
  | none =>
    ({ adv_r := tot, mean := mean, trb_r := tripleSub tot mean },
     { adv_r := adv_comp_tend inp tot, mean := adv_comp_tend inp mean,
       trb_r := tripleSub (adv_comp_tend inp tot) (adv_comp_tend inp mean) })

/-- The value the vertical-velocity budget assigns at the model top:
`2 * fz[-1] / DN[-2]`, then scaled by `-g` and divided by the dry air
mass like every vertical tendency. -/
def w_top_value (inp : AdvInputs) (fluxZ : Arr) : F :=
  odiv (omul (odiv (oscale 2 (omul (get1 inp.rhod8z (inp.rhod8z.length - 1))
                                   (get1 fluxZ (inp.rhod8z.length - 1))))
                   (last2 inp.DN))
             (some (-gq)))
       (get1 inp.mu_stag_Z inp.rhod8z.length)

/-! ## Budget-method parsing and validation (tools.py lines 82-84, 861-883,
1983-1994) -/

def kCart : String := "cartesian"

def kDzx : String := "dz_out_x"

def kDzz : String := "dz_out_z"

def kF2 : String := "force_2nd_adv"

/-- Available settings (tools.py line 82). -/
def budget_settings : List String := ["cartesian", "dz_out_x", "dz_out_z", "force_2nd_adv"]

/-- Abbreviations for settings (tools.py line 84). -/
def settings_short_names : List (String × String) := [("2nd", "force_2nd_adv")]

/-- Python `str.split(" ")`: split on every single space, keeping empty
pieces. -/
def splitChars : List Char → List (List Char)
  | [] => [[]]
  | c :: cs =>
    match splitChars cs with
    | [] => [[c]]
    | h :: t => if c == ' ' then [] :: h :: t else (c :: h) :: t

def splitSpace (s : String) : List String :=
  (splitChars s.data).map (fun l => String.mk l)

/-- Python `sep.join(lst)`. -/
def joinSep (sep : String) : List String → String
  | [] => ""
  | [a] => a
  | a :: b :: t => a ++ sep ++ joinSep sep (b :: t)

def sepComma : String := ", "

def sepSpace : String := " "

def errUndef : String := "Undefined keys: "

/-- One budget method: the selected settings (tools.py line 874-883). -/
structure BudgetConfig where
  cartesian : Bool
  dz_out_x : Bool
  dz_out_z : Bool
  force_2nd_adv : Bool

/-- Translation of `get_budget_method` (tools.py lines 861-883): split the
method string, replace abbreviations, fail on undefined keywords, and
build the settings record. -/
def get_budget_method (budget_method : String) : Except String (BudgetConfig × String) :=
  let p := if budget_method == "" then ((("native" : String)), ([] : List String))
           else (budget_method, splitSpace budget_method)
  let lst := p.2.map (fun key => ((settings_short_names.lookup key).getD key))
  let undef := lst.filter (fun key => !(budget_settings.contains key))
  if !undef.isEmpty then
    Except.error (errUndef ++ joinSep sepComma undef)
  else
    Except.ok ({ cartesian := lst.contains kCart, dz_out_x := lst.contains kDzx,
                 dz_out_z := lst.contains kDzz, force_2nd_adv := lst.contains kF2 }, p.1)

def errDzCart : String := "dz_out can only be used for Cartesian calculations!"

def errDzBoth : String := "dz_out_x and dz_out_z cannot be used at the same time!"

/-- The start of the per-budget-method body of `calc_tendencies_core`
(tools.py lines 1983-1994): parse the method string, then reject invalid
`dz_out` combinations before any tendency is computed.  `Except.ok` means
the configuration was accepted and the pipeline proceeds to
`total_tendency` and `adv_tend` for this method. -/
def run_budget_method (budget_method : String) : Except String (BudgetConfig × String) :=
  match get_budget_method budget_method with
  | Except.error e => Except.error e
  | Except.ok (c, bm) =>
    if c.dz_out_x || c.dz_out_z then
      if !c.cartesian then Except.error errDzCart
      else if c.dz_out_x && c.dz_out_z then Except.error errDzBoth
      else Except.ok (c, bm)
    else Except.ok (c, bm)

/-! ## Control flow of calc_tendencies / calc_tendencies_core
(tools.py lines 1713-1946) -/

/-- The `budget_methods` argument may be a single string or a list. -/
inductive StrOrList where
  | str : String → StrOrList
  | lst : List String → StrOrList

/-- Translation of `make_list`: wrap a single string into a list. -/
def make_list : StrOrList → List String
  | StrOrList.str x => [x]
  | StrOrList.lst x => x

/-- The default of the `budget_methods` parameter of `calc_tendencies`
and `calc_tendencies_core` (tools.py lines 1713 and 1866): the string
`"castesian"`, a misspelling of `"cartesian"`. -/
def default_budget_methods : String := "castesian"

/-- Translation of tools.py line 1935:
`cartesian = "cartesian" in " ".join(budget_methods)`. -/
def core_cartesian_flag (budget_methods : StrOrList) : Bool :=
  isInfxOf kCart.data (joinSep sepSpace (make_list budget_methods)).data

/-- Translation of tools.py line 1943: when a tile is processed, periodic
boundary conditions are switched off in every tiled dimension:
`cyclic = {d: cyclic[d] and (d not in tile) for d in cyclic.keys()}`. -/
def update_cyclic (cyclic : List (String × Bool)) (tile : List String) :
    List (String × Bool) :=
  cyclic.map (fun p => (p.1, p.2 && !(tile.contains p.1)))

/-- The cyclic mapping used by the per-tile computation of
`calc_tendencies_core` (tools.py lines 1938-1943): unchanged without a
tile, with the tiled dimensions forced non-periodic otherwise. -/
def core_effective_cyclic (cyclic : List (String × Bool)) :
    Option (List String) → List (String × Bool)
  | some tile => update_cyclic cyclic tile
  | none => cyclic

/-- Result of one `calc_tendencies_core` run for one variable. -/
inductive CoreOutcome where
  | loaded
  | computed (res : List (BudgetConfig × String))

/-- Control-flow model of `calc_tendencies_core` (tools.py lines 1866-2130)
for one variable.  `files_exist` abstracts `fpath.exists()` for all output
files of the variable; when `skip_exist` holds and the output exists, the
stored result is loaded and returned without touching the budget methods
(lines 1964-1975).  Otherwise each budget method is parsed and validated
and its tendencies are computed (lines 1983-2008).  Returned alongside are
the `cartesian` flag of line 1935 and the effective cyclic mapping of
lines 1930-1943. -/
def calc_tendencies_core_model (cyclic : List (String × Bool))
    (tile : Option (List String)) (skip_exist files_exist : Bool)
    (budget_methods : StrOrList := StrOrList.str default_budget_methods) :
    Except String (Bool × List (String × Bool) × CoreOutcome) :=
  let bms := make_list budget_methods
  let cartesian := core_cartesian_flag budget_methods
  let cyc := core_effective_cyclic cyclic tile
  if skip_exist && files_exist then
    Except.ok (cartesian, cyc, CoreOutcome.loaded)
  else
    match bms.mapM run_budget_method with
    | Except.error e => Except.error e
    | Except.ok res => Except.ok (cartesian, cyc, CoreOutcome.computed res)

/-- Result of a `calc_tendencies` run. -/
inductive RunOutcome where
  | loadedExisting
  | tiled
  | computedDirect

def errNproc : String := "Number of processors > 1, but chunking is disabled (chunks=None)!"

/-- Control-flow model of `calc_tendencies` (tools.py lines 1713-1863).
`files_exist` abstracts the existence of all postprocessed output files
(lines 1780-1794); if `skip_exist` holds and they all exist, the stored
output is loaded and returned (lines 1800-1808).  Otherwise, with chunking
the created tiles are processed by `calc_tendencies_core`
(lines 1810-1858), and without chunking a process count above one is a
fatal configuration error (lines 1860-1863). -/
def calc_tendencies_model (cyclic : List (String × Bool))
    (skip_exist files_exist chunksGiven : Bool) (tiles : List (List String))
    (nproc : ℕ)
    (budget_methods : StrOrList := StrOrList.str default_budget_methods) :
    Except String RunOutcome :=
  if skip_exist && files_exist then Except.ok RunOutcome.loadedExisting
  else if chunksGiven then
    match tiles.mapM (fun t =>
        calc_tendencies_core_model cyclic (some t) skip_exist files_exist budget_methods) with
    | Except.error e => Except.error e
    | Except.ok _ => Except.ok RunOutcome.tiled
  else if 1 < nproc then Except.error errNproc
  else
    match calc_tendencies_core_model cyclic none skip_exist files_exist budget_methods with
    | Except.error e => Except.error e
    | Except.ok _ => Except.ok RunOutcome.computedDirect

/-! ## Tiling (tools.py lines 2135-2180) -/

/-- A half-open integer index range; `none` means an open end
(Python `slice(start, stop)` with `None`). -/
structure TSlice where
  start : Option ℕ
  stop : Option ℕ
  deriving DecidableEq

/-- The chunk boundaries `np.arange(len(dat_mean[dim]))[::size]`
(tools.py line 2145). -/
def tile_bounds (n size : ℕ) : List ℕ :=
  (List.range n).filter (fun i => i % size == 0)

/-- The per-axis tile slices of `create_tiles` (tools.py lines 2145-2175):
`none` when the axis yields a single chunk (it is then dropped), otherwise
one pair of slices (unstaggered, staggered) per tile, with no halo at the
domain edges, one halo point before each interior start, and
`bounds[i+1] + ext` as interior stop with `ext = 1` (unstaggered) or
`ext = 2` (staggered). -/
def tile_slices (n size : ℕ) : Option (List (TSlice × TSlice)) :=
  let bounds := tile_bounds n size
  if bounds.length == 1 then none
  else some ((List.range bounds.length).map (fun i =>
    let start := if i == 0 then none else some (bounds.getD i 0 - 1)
    let stop_u := if i == bounds.length - 1 then none else some (bounds.getD (i + 1) 0 + 1)
    let stop_s := if i == bounds.length - 1 then none else some (bounds.getD (i + 1) 0 + 2)
    (TSlice.mk start stop_u, TSlice.mk start stop_s)))

def errChunkDim : String := "Chunking dimension not in data!"

/-- Translation of `create_tiles` (tools.py lines 2135-2180) without the
final Cartesian product over axes: walk over the chunks mapping, fail on
a dimension absent from the data, drop (with a warning, third component)
any axis that partitions into a single chunk, and collect the per-axis
slices.  The first component is the surviving chunks mapping. -/
def create_tiles (datDims : List String) (datLen : String → ℕ) :
    List (String × ℕ) →
    Except String (List (String × ℕ) × List (String × List (TSlice × TSlice)) × List String)
  | [] => Except.ok ([], [], [])
  | (dim, size) :: rest =>
    if !(datDims.contains dim) then Except.error errChunkDim
    else
      match tile_slices (datLen dim) size with
      | none =>
        match create_tiles datDims datLen rest with
        | Except.error e => Except.error e
        | Except.ok (cs, ts, ws) => Except.ok (cs, ts, dim :: ws)
      | some ts0 =>
        match create_tiles datDims datLen rest with
        | Except.error e => Except.error e
        | Except.ok (cs, ts, ws) => Except.ok ((dim, size) :: cs, (dim, ts0) :: ts, ws)

/-! ## Dimension-name constants and concrete evaluation inputs -/

def dimX : String := "x"

def dimY : String := "y"

def dimZ : String := "z"

def dimXS : String := "x_stag"

def dimZS : String := "z_stag"

def dimTime : String := "Time"

/-- A constant row used by the concrete evaluation inputs. -/
def a3one : Arr := [some 1, some 1, some 1]

/-- Horizontal parameters of a tiny periodic x-slice (one vertical level,
three grid points, all factors one). -/
def hxce : HorParams :=
  { dimBase := "x", cyc := true, fluxUnstag := false, fac_rho := [a3one],
    fac_mu := [a3one], mfflx := [a3one], mfX := [a3one], mfY := [a3one],
    dx := 1, rho_stag := [a3one], mu_stag := [a3one] }

def hyce : HorParams := { hxce with dimBase := "y" }

/-- Inputs of `adv_tend` for a scalar variable on a two-level column with
explicitly time-resolved turbulent fluxes present upstream.  The supplied
vertical turbulent flux `[1, 7]` is not the residual `[4, 4]` of the
total `[5, 5]` minus the mean `[1, 1]`. -/
def ceInp : AdvInputs :=
  { isW := false, cartesian := true, dz_out := false,
    tot_flux := { X := [a3one], Y := [a3one], Z := [some 5, some 5] },
    var_stag := { X := [a3one], Y := [a3one], Z := [some 1, some 1] },
    vel_stag_X := [a3one], vel_stag_Y := [a3one], vel_stag_Z := [some 1, some 1],
    trb := some { X := [a3one], Y := [a3one], Z := [some 1, some 7] },
    corrX := [some 0, some 0], corrY := [some 0, some 0], corrT := [some 0, some 0],
    rhod8z := [some 1, some 1], hx := hxce, hy := hyce,
    DNW := [some 1], DN := [some 1, none], mu_stag_Z := [some 1] }

/-- Horizontal parameters with empty slices (the horizontal directions
are irrelevant to the vertical-boundary evaluation). -/
def hxe : HorParams :=
  { dimBase := "x", cyc := false, fluxUnstag := false, fac_rho := [],
    fac_mu := [], mfflx := [], mfX := [], mfY := [], dx := 1,
    rho_stag := [], mu_stag := [] }

def hye : HorParams := { hxe with dimBase := "y" }

/-- Inputs of `adv_tend` for the vertical-velocity budget on a one-level
column: `fz = [1]`, `DN = [1, NaN]`, `MU_STAG_MEAN = [1, 1]`. -/
def ceW : AdvInputs :=
  { isW := true, cartesian := true, dz_out := false,
    tot_flux := { X := [], Y := [], Z := [some 1] },
    var_stag := { X := [], Y := [], Z := [some 1] },
    vel_stag_X := [], vel_stag_Y := [], vel_stag_Z := [some 1],
    trb := none, corrX := [some 0], corrY := [some 0], corrT := [some 0],
    rhod8z := [some 1], hx := hxe, hy := hye,
    DNW := [some 1], DN := [some 1, none], mu_stag_Z := [some 1, some 1] }

/-- A field with a single bump, used to evaluate the staggering algebra. -/
def bumpField : Arr := [some 0, some 0, some 1, some 0, some 0]

/-- A budget-method string selecting both dz_out variants. -/
def methodDzBoth : String := "dz_out_x dz_out_z"

/-- The error message raised for the default budget-method string. -/
def errCastesian : String := "Undefined keys: castesian"

/-- Default element for tile-slice lookups. -/
def tsDefault : TSlice × TSlice := (TSlice.mk none none, TSlice.mk none none)

/-! ## Basic lemmas about the array primitives -/

@[simp] theorem get1_nil (i : ℕ) : get1 [] i = none := rfl

@[simp] theorem get1_cons_zero (a : F) (l : Arr) : get1 (a :: l) 0 = a := rfl

@[simp] theorem get1_cons_succ (a : F) (l : Arr) (i : ℕ) :
    get1 (a :: l) (i + 1) = get1 l i := rfl

theorem get1_of_le_length : ∀ (l : Arr) (i : ℕ), l.length ≤ i → get1 l i = none
  | [], _, _ => rfl
  | _ :: _, 0, h => by simp at h
  | _ :: t, i + 1, h => get1_of_le_length t i (by simpa using h)

@[simp] theorem oadd_some (a b : ℚ) : oadd (some a) (some b) = some (a + b) := rfl

@[simp] theorem oadd_none_left (y : F) : oadd none y = none := by cases y <;> rfl

@[simp] theorem oadd_none_right (x : F) : oadd x none = none := by cases x <;> rfl

@[simp] theorem osub_some (a b : ℚ) : osub (some a) (some b) = some (a - b) := rfl

@[simp] theorem osub_none_left (y : F) : osub none y = none := by cases y <;> rfl

@[simp] theorem osub_none_right (x : F) : osub x none = none := by cases x <;> rfl

@[simp] theorem omul_some (a b : ℚ) : omul (some a) (some b) = some (a * b) := rfl

@[simp] theorem omul_none_left (y : F) : omul none y = none := by cases y <;> rfl

@[simp] theorem omul_none_right (x : F) : omul x none = none := by cases x <;> rfl

@[simp] theorem odiv_some (a b : ℚ) : odiv (some a) (some b) = some (a / b) := rfl

@[simp] theorem odiv_none_left (y : F) : odiv none y = none := by cases y <;> rfl

@[simp] theorem odiv_none_right (x : F) : odiv x none = none := by cases x <;> rfl

@[simp] theorem oscale_some (c a : ℚ) : oscale c (some a) = some (c * a) := rfl

@[simp] theorem oscale_none (c : ℚ) : oscale c none = none := rfl

@[simp] theorem oneg_some (a : ℚ) : oneg (some a) = some (-a) := rfl

@[simp] theorem oneg_none : oneg none = none := rfl

theorem get1_zipWith (f : F → F → F) (h1 : ∀ y, f none y = none)
    (h2 : ∀ x, f x none = none) :
    ∀ (a b : Arr) (i : ℕ), get1 (List.zipWith f a b) i = f (get1 a i) (get1 b i)
  | [], _, _ => by simp [h1]
  | _ :: _, [], _ => by simp [h2]
  | _ :: _, _ :: _, 0 => by simp
  | x :: xs, y :: ys, (i + 1) => by
    simpa using get1_zipWith f h1 h2 xs ys i

@[simp] theorem get1_zip1_oadd (a b : Arr) (i : ℕ) :
    get1 (zip1 oadd a b) i = oadd (get1 a i) (get1 b i) :=
  get1_zipWith oadd oadd_none_left oadd_none_right a b i

@[simp] theorem get1_zip1_osub (a b : Arr) (i : ℕ) :
    get1 (zip1 osub a b) i = osub (get1 a i) (get1 b i) :=
  get1_zipWith osub osub_none_left osub_none_right a b i

@[simp] theorem get1_zip1_omul (a b : Arr) (i : ℕ) :
    get1 (zip1 omul a b) i = omul (get1 a i) (get1 b i) :=
  get1_zipWith omul omul_none_left omul_none_right a b i

@[simp] theorem get1_zip1_odiv (a b : Arr) (i : ℕ) :
    get1 (zip1 odiv a b) i = odiv (get1 a i) (get1 b i) :=
  get1_zipWith odiv odiv_none_left odiv_none_right a b i

theorem get1_amap (f : F → F) (h : f none = none) :
    ∀ (l : Arr) (i : ℕ), get1 (amap f l) i = f (get1 l i)
  | [], _ => by simp [amap, h]
  | _ :: _, 0 => by simp [amap]
  | _ :: xs, (i + 1) => by simpa [amap] using get1_amap f h xs i

theorem get1_append_none :
    ∀ (l : Arr) (i : ℕ), get1 (l ++ [none]) i = if i < l.length then get1 l i else none
  | [], 0 => by simp
  | [], (_ + 1) => by simp
  | _ :: _, 0 => by simp
  | _ :: xs, (i + 1) => by
    simpa using get1_append_none xs i

theorem get1_dropLast :
    ∀ (l : Arr) (i : ℕ), get1 l.dropLast i = if i < l.length - 1 then get1 l i else none
  | [], i => by simp
  | [_], i => by cases i <;> simp
  | a :: b :: t, 0 => by simp
  | a :: b :: t, (i + 1) => by
    have ih := get1_dropLast (b :: t) i
    simp only [List.dropLast_cons₂, get1_cons_succ, List.length_cons] at ih ⊢
    rw [ih]
    by_cases h : i < t.length + 1 - 1
    · rw [if_pos h, if_pos (by omega)]
    · rw [if_neg h, if_neg (by omega)]

@[simp] theorem length_dropLast_arr (l : Arr) : l.dropLast.length = l.length - 1 :=
  List.length_dropLast l

theorem get1_shift1 (l : Arr) (i : ℕ) :
    get1 (shift1 l) i = if 0 < i ∧ i < l.length then get1 l (i - 1) else none := by
  match l, i with
  | [], i => simp [shift1]
  | a :: t, 0 => simp [shift1]
  | a :: t, (i + 1) =>
    have := get1_dropLast (a :: t) i
    simp only [shift1, get1_cons_succ, List.length_cons] at this ⊢
    rw [this]
    by_cases h : i < t.length + 1 - 1
    · rw [if_pos h, if_pos (by omega)]
      simp only [Nat.add_sub_cancel]
    · rw [if_neg h, if_neg (by omega)]

theorem get1_shiftm1 (l : Arr) (i : ℕ) :
    get1 (shiftm1 l) i = if i + 1 < l.length then get1 l (i + 1) else none := by
  match l with
  | [] => simp [shiftm1]
  | a :: t =>
    have := get1_append_none t i
    simp only [shiftm1, get1_cons_succ, List.length_cons] at this ⊢
    rw [this]
    by_cases h : i < t.length
    · rw [if_pos h, if_pos (by omega)]
    · rw [if_neg h, if_neg (by omega)]

theorem last1_eq_get1 : ∀ l : Arr, last1 l = get1 l (l.length - 1)
  | [] => rfl
  | [_] => rfl
  | a :: b :: t => by
    have := last1_eq_get1 (b :: t)
    simp only [last1, List.length_cons] at this ⊢
    rw [this]
    have h : t.length + 1 + 1 - 1 = (t.length + 1 - 1) + 1 := by omega
    rw [h, get1_cons_succ]

theorem head1_eq_get1 (l : Arr) : head1 l = get1 l 0 := by cases l <;> rfl

@[simp] theorem length_shift1 (l : Arr) : (shift1 l).length = l.length := by
  cases l with
  | nil => rfl
  | cons a t => simp [shift1]

@[simp] theorem length_shiftm1 (l : Arr) : (shiftm1 l).length = l.length := by
  cases l with
  | nil => rfl
  | cons a t => simp [shiftm1]

@[simp] theorem length_roll1 (l : Arr) : (roll1 l).length = l.length := by
  cases l with
  | nil => rfl
  | cons a t => simp [roll1]

theorem get1_roll1 (l : Arr) (i : ℕ) (hi : i < l.length) :
    get1 (roll1 l) i = if i = 0 then get1 l (l.length - 1) else get1 l (i - 1) := by
  match l, i with
  | a :: t, 0 => simp [roll1, last1_eq_get1]
  | a :: t, (i + 1) =>
    have := get1_dropLast (a :: t) i
    simp only [List.length_cons] at hi
    simp only [roll1, get1_cons_succ, List.length_cons] at this ⊢
    rw [this, if_pos (by omega), if_neg (by omega)]
    simp only [Nat.add_sub_cancel]

@[simp] theorem length_set_first (l : Arr) (v : F) : (set_first l v).length = l.length := by
  cases l <;> rfl

theorem get1_set_first (l : Arr) (v : F) (i : ℕ) :
    get1 (set_first l v) i = if i = 0 ∧ l ≠ [] then v else get1 l i := by
  match l, i with
  | [], i => simp [set_first]
  | a :: t, 0 => simp [set_first]
  | a :: t, (i + 1) => simp [set_first]

@[simp] theorem length_set_last : ∀ (l : Arr) (v : F), (set_last l v).length = l.length
  | [], _ => rfl
  | [_], _ => rfl
  | a :: b :: t, v => by
    have := length_set_last (b :: t) v
    simp only [set_last, List.length_cons] at this ⊢
    omega

theorem get1_set_last : ∀ (l : Arr) (v : F) (i : ℕ),
    get1 (set_last l v) i = if i = l.length - 1 ∧ l ≠ [] then v else get1 l i
  | [], v, i => by simp [set_last]
  | [a], v, 0 => by simp [set_last]
  | [a], v, (i + 1) => by simp [set_last]
  | a :: b :: t, v, 0 => by simp [set_last]
  | a :: b :: t, v, (i + 1) => by
    have ih := get1_set_last (b :: t) v i
    simp only [set_last, get1_cons_succ, List.length_cons] at ih ⊢
    rw [ih]
    by_cases h : i = t.length + 1 - 1
    · rw [if_pos ⟨h, List.cons_ne_nil b t⟩,
        if_pos ⟨by omega, List.cons_ne_nil a (b :: t)⟩]
    · have h2 : ¬(i + 1 = t.length + 1 + 1 - 1) := by omega
      rw [if_neg (fun hc => h hc.1), if_neg (fun hc => h2 hc.1)]

theorem get1_set_last_of_ne (l : Arr) (v : F) (i : ℕ) (h : ¬ i = l.length - 1) :
    get1 (set_last l v) i = get1 l i := by
  rw [get1_set_last, if_neg (fun hc => h hc.1)]

theorem get1_set_first_of_ne (l : Arr) (v : F) (i : ℕ) (h : ¬ i = 0) :
    get1 (set_first l v) i = get1 l i := by
  rw [get1_set_first, if_neg (fun hc => h hc.1)]

@[simp] theorem length_zip1 (f : F → F → F) :
    ∀ (a b : Arr), (zip1 f a b).length = min a.length b.length
  | [], b => by simp [zip1]
  | _ :: _, [] => by simp [zip1]
  | _ :: as, _ :: bs => by
    have := length_zip1 f as bs
    simp only [zip1] at this ⊢
    simp [this, Nat.succ_min_succ]

theorem get1_zip1_avg (a b : Arr) (i : ℕ) :
    get1 (zip1 (fun x y => oscale (1/2) (oadd x y)) a b) i
      = oscale (1/2) (oadd (get1 a i) (get1 b i)) :=
  get1_zipWith _ (fun y => by simp) (fun x => by simp) a b i

theorem length_post_stagger (ds : Arr) (dim : String) (cyc : Bool) (data : Arr)
    (ic : Option VertConst) :
    (post_stagger ds dim cyc data ic).length = ds.length + 1 := by
  rcases Bool.eq_false_or_eq_true (dim == "bottom_top") with hd | hd
  · simp only [post_stagger, hd, if_true]
    cases ic <;> simp
  · simp only [post_stagger, hd, Bool.false_eq_true, if_false]
    split_ifs <;> simp

theorem get1_post_stagger_mid (ds : Arr) (dim : String) (cyc : Bool) (data : Arr)
    (ic : Option VertConst) (i : ℕ) (h0 : 0 < i) (hi : i < ds.length) :
    get1 (post_stagger ds dim cyc data ic) i = get1 ds i := by
  have happ := get1_append_none ds i
  rw [if_pos hi] at happ
  rcases Bool.eq_false_or_eq_true (dim == "bottom_top") with hd | hd
  · simp only [post_stagger, hd, if_true]
    cases ic with
    | none => exact happ
    | some c =>
      rw [get1_set_last_of_ne _ _ _ (by simp; omega),
        get1_set_first_of_ne _ _ _ (by omega)]
      exact happ
  · simp only [post_stagger, hd, Bool.false_eq_true, if_false]
    split_ifs
    · rw [get1_set_last_of_ne _ _ _ (by simp; omega)]
      exact happ
    · rw [get1_set_first_of_ne _ _ _ (by omega)]
      exact happ

theorem length_stagger (data : Arr) (dim : String) (FNM FNP : Arr) (cyc : Bool)
    (ic : Option VertConst) (hd : (dim == "bottom_top") = false) :
    (stagger data dim FNM FNP cyc ic).length = data.length + 1 := by
  simp only [stagger, hd, Bool.false_eq_true, if_false]
  rw [length_post_stagger]
  simp

theorem get1_stagger_mid (data : Arr) (dim : String) (FNM FNP : Arr) (cyc : Bool)
    (ic : Option VertConst) (i : ℕ) (hd : (dim == "bottom_top") = false)
    (h0 : 0 < i) (hi : i < data.length) :
    get1 (stagger data dim FNM FNP cyc ic) i
      = oscale (1/2) (oadd (get1 data i) (get1 data (i - 1))) := by
  simp only [stagger, hd, Bool.false_eq_true, if_false]
  rw [get1_post_stagger_mid _ _ _ _ _ i h0 (by simpa using hi)]
  rw [get1_zip1_avg, get1_roll1 data i hi, if_neg (by omega)]

theorem get1_lift : ∀ (f : List ℚ) (j : ℕ),
    get1 (f.map some) j = if j < f.length then some (f.getD j 0) else none
  | [], _ => by simp
  | _ :: _, 0 => by simp
  | _ :: t, (j + 1) => by simpa using get1_lift t j

theorem dimX_beq_bt : (dimX == "bottom_top") = false := rfl

theorem dimBT_beq_bt : (dimBT == "bottom_top") = true := rfl

theorem head1_tail (l : Arr) : head1 l.tail = get1 l 1 := by
  cases l with
  | nil => rfl
  | cons a t => simpa using (head1_eq_get1 t)

theorem head1_tail_tail (l : Arr) : head1 l.tail.tail = get1 l 2 := by
  cases l with
  | nil => rfl
  | cons a t =>
    cases t with
    | nil => rfl
    | cons b u => simpa using (head1_eq_get1 u)

theorem last2_eq_get1 : ∀ (l : Arr), 2 ≤ l.length → last2 l = get1 l (l.length - 2)
  | [a, b], _ => rfl
  | a :: b :: c :: t, _ => by
    have ih := last2_eq_get1 (b :: c :: t) (by simp)
    simp only [last2, List.length_cons] at ih ⊢
    rw [ih]
    have h : t.length + 1 + 1 + 1 - 2 = (t.length + 1 + 1 - 2) + 1 := by omega
    rw [h, get1_cons_succ]

theorem set_first_ne_nil (l : Arr) (v : F) (h : l ≠ []) : set_first l v ≠ [] := by
  cases l with
  | nil => exact absurd rfl h
  | cons a t => simp [set_first]

theorem get1_post_stagger_last_cyclic (ds : Arr) (dim : String) (data : Arr)
    (ic : Option VertConst) (hd : (dim == "bottom_top") = false) :
    get1 (post_stagger ds dim true data ic) ds.length
      = get1 (post_stagger ds dim true data ic) 0 := by
  simp only [post_stagger, hd, Bool.false_eq_true, if_false, if_true]
  have hlen : (ds ++ [none]).length = ds.length + 1 := by simp
  have hlast : get1 (set_last (ds ++ [none]) (head1 (ds ++ [none]))) ds.length
      = head1 (ds ++ [none]) := by
    rw [get1_set_last, if_pos ⟨by simp, by simp⟩]
  rcases Nat.eq_zero_or_pos ds.length with h0 | h0
  · rw [h0]
  · rw [hlast, get1_set_last_of_ne _ _ _ (by simp; omega), ← head1_eq_get1]

theorem get1_post_stagger_first_noncyc (ds : Arr) (dim : String) (data : Arr)
    (ic : Option VertConst) (hd : (dim == "bottom_top") = false) :
    get1 (post_stagger ds dim false data ic) 0 = none := by
  simp only [post_stagger, hd, Bool.false_eq_true, if_false]
  rw [get1_set_first, if_pos ⟨rfl, by simp⟩]

theorem get1_post_stagger_last_noncyc (ds : Arr) (dim : String) (data : Arr)
    (ic : Option VertConst) (hd : (dim == "bottom_top") = false) :
    get1 (post_stagger ds dim false data ic) ds.length = none := by
  simp only [post_stagger, hd, Bool.false_eq_true, if_false]
  rcases Nat.eq_zero_or_pos ds.length with h0 | h0
  · rw [h0, get1_set_first, if_pos ⟨rfl, by simp⟩]
  · rw [get1_set_first_of_ne _ _ _ (by omega), get1_append_none, if_neg (by omega)]

theorem length_diff_unstag (data : Arr) (dim : String) (cyc : Bool)
    (hs : strContainsStag dim = false) :
    (diff data dim cyc).length = data.length + 1 := by
  simp only [diff, hs, Bool.false_eq_true, if_false]
  rw [length_post_stagger]
  split_ifs <;> simp

/-- Claim C3.  Boundary-cell filling of `stagger` (and of `diff` when it
goes from an unstaggered to a staggered axis): on the vertical axis the
bottom is filled by the three-point extrapolation `CF1, CF2, CF3` and the
top by the extrapolation `CFN, CFN1` from the supplied constants; on a
periodic non-vertical axis the upper boundary point is a copy of the
lower one; on a non-periodic axis the first boundary point is NaN
(missing), never a fabricated value (and the last point stays NaN too). -/
theorem stagger_boundary_fill_policy (data FNM FNP : Arr) (cyc : Bool)
    (c : VertConst) (dim : String) :
    (FNM.length = data.length → FNP.length = data.length → 2 ≤ data.length →
      get1 (stagger data dimBT FNM FNP cyc (some c)) 0
          = oadd (oadd (oscale c.CF1 (get1 data 0)) (oscale c.CF2 (get1 data 1)))
              (oscale c.CF3 (get1 data 2))
        ∧ get1 (stagger data dimBT FNM FNP cyc (some c)) data.length
          = oadd (oscale c.CFN (get1 data (data.length - 1)))
              (oscale c.CFN1 (get1 data (data.length - 2))))
    ∧ ((dim == "bottom_top") = false →
        get1 (stagger data dim FNM FNP true none) data.length
          = get1 (stagger data dim FNM FNP true none) 0
        ∧ get1 (stagger data dim FNM FNP false none) 0 = none
        ∧ get1 (stagger data dim FNM FNP false none) data.length = none)
    ∧ ((dim == "bottom_top") = false → strContainsStag dim = false →
        get1 (diff data dim true) data.length = get1 (diff data dim true) 0
        ∧ get1 (diff data dim false) 0 = none
        ∧ get1 (diff data dim false) data.length = none) := by
  refine ⟨fun hm hp hn => ?_, fun hd => ?_, fun hd hs => ?_⟩
  · simp only [stagger, dimBT_beq_bt, if_true]
    simp only [post_stagger, dimBT_beq_bt, if_true]
    have hds : (zip1 oadd (zip1 omul data FNM) (zip1 omul (shift1 data) FNP)).length
        = data.length := by simp [hm, hp]
    constructor
    · rw [get1_set_last_of_ne _ _ _ (by simp [hds]; omega),
        get1_set_first, if_pos ⟨rfl, by simp⟩, head1_eq_get1, head1_tail, head1_tail_tail]
    · rw [get1_set_last, if_pos ⟨by simp [hds], set_first_ne_nil _ _ (by simp)⟩,
        last1_eq_get1, last2_eq_get1 data hn]
  · have hds : (zip1 (fun a b => oscale (1/2) (oadd a b)) data (roll1 data)).length
        = data.length := by simp
    refine ⟨?_, ?_, ?_⟩
    · have h := get1_post_stagger_last_cyclic
        (zip1 (fun a b => oscale (1/2) (oadd a b)) data (roll1 data)) dim data none hd
      rw [hds] at h
      simpa only [stagger, hd, Bool.false_eq_true, if_false] using h
    · have h := get1_post_stagger_first_noncyc
        (zip1 (fun a b => oscale (1/2) (oadd a b)) data (roll1 data)) dim data none hd
      simpa only [stagger, hd, Bool.false_eq_true, if_false] using h
    · have h := get1_post_stagger_last_noncyc
        (zip1 (fun a b => oscale (1/2) (oadd a b)) data (roll1 data)) dim data none hd
      rw [hds] at h
      simpa only [stagger, hd, Bool.false_eq_true, if_false] using h
  · have hds : ∀ cy : Bool,
        (zip1 osub data (if vert_time_dims.contains dim || !cy then shift1 data
          else roll1 data)).length = data.length := by
      intro cy
      split_ifs <;> simp
    refine ⟨?_, ?_, ?_⟩
    · have h := get1_post_stagger_last_cyclic
        (zip1 osub data (if vert_time_dims.contains dim || !true then shift1 data
          else roll1 data)) dim [] none hd
      rw [hds true] at h
      simpa only [diff, hs, Bool.false_eq_true, if_false] using h
    · have h := get1_post_stagger_first_noncyc
        (zip1 osub data (if vert_time_dims.contains dim || !false then shift1 data
          else roll1 data)) dim [] none hd
      simpa only [diff, hs, Bool.false_eq_true, if_false] using h
    · have h := get1_post_stagger_last_noncyc
        (zip1 osub data (if vert_time_dims.contains dim || !false then shift1 data
          else roll1 data)) dim [] none hd
      rw [hds false] at h
      simpa only [diff, hs, Bool.false_eq_true, if_false] using h

/-- Claim C3, witness: evaluation on the column `[1, 2, 3]` with
extrapolation constants `(1, 2, 3, 4, 5)` and the non-vertical axis `x`. -/
theorem stagger_boundary_fill_policy_w :
    get1 (stagger [some (1:ℚ), some 2, some 3] dimBT a3one a3one false (some ⟨1, 2, 3, 4, 5⟩)) 0
        = some 14
    ∧ get1 (stagger [some (1:ℚ), some 2, some 3] dimBT a3one a3one false (some ⟨1, 2, 3, 4, 5⟩)) 3
        = some 22
    ∧ get1 (stagger [some (1:ℚ), some 2, some 3] dimX a3one a3one true none) 3
        = get1 (stagger [some (1:ℚ), some 2, some 3] dimX a3one a3one true none) 0
    ∧ get1 (stagger [some (1:ℚ), some 2, some 3] dimX a3one a3one false none) 0 = none
    ∧ get1 (diff [some (1:ℚ), some 2, some 3] dimX false) 0 = none := by
  have h := stagger_boundary_fill_policy [some (1:ℚ), some 2, some 3] a3one a3one false
    ⟨1, 2, 3, 4, 5⟩ dimX
  have hv := h.1 rfl rfl (by norm_num)
  refine ⟨?_, ?_, (h.2.1 rfl).1, (h.2.1 rfl).2.1, (h.2.2 rfl rfl).2.1⟩
  · have h1 := hv.1
    norm_num [get1] at h1
    exact h1
  · have h2 := hv.2
    norm_num [get1] at h2
    exact h2

theorem get1_tail (l : Arr) (i : ℕ) : get1 l.tail i = get1 l (i + 1) := by
  cases l <;> simp

theorem get1_ext (a : Arr) : ∀ (b : Arr), a.length = b.length →
    (∀ i, get1 a i = get1 b i) → a = b := by
  induction a with
  | nil =>
    intro b hl _
    cases b with
    | nil => rfl
    | cons y ys => simp at hl
  | cons x xs ih =>
    intro b hl hp
    cases b with
    | nil => simp at hl
    | cons y ys =>
      have h0 := hp 0
      simp only [get1_cons_zero] at h0
      rw [h0, ih ys (by simpa using hl) (fun i => by simpa using hp (i + 1))]

theorem head1_zip1_osub_shift (data : Arr) :
    head1 (zip1 osub data (shift1 data)) = none := by
  cases data <;> simp [zip1, shift1, head1]

theorem get1_post_stagger_zero_none (ds : Arr) (dim : String) (cyc : Bool)
    (h0 : head1 ds = none) : get1 (post_stagger ds dim cyc [] none) 0 = none := by
  have happ : get1 (ds ++ [none]) 0 = none := by
    rw [get1_append_none]
    split_ifs
    · rw [← head1_eq_get1, h0]
    · rfl
  rcases Bool.eq_false_or_eq_true (dim == "bottom_top") with hd | hd
  · simp only [post_stagger, hd, if_true]
    exact happ
  · simp only [post_stagger, hd, Bool.false_eq_true, if_false]
    split_ifs
    · by_cases hl : 0 = (ds ++ [none]).length - 1
      · have hds : ds = [] := by
          have hlen : ds.length = 0 := by
            simp only [List.length_append, List.length_singleton] at hl
            omega
          exact List.length_eq_zero.mp hlen
        subst hds
        rfl
      · rw [get1_set_last_of_ne _ _ _ hl]
        exact happ
    · rw [get1_set_first, if_pos ⟨rfl, by simp⟩]

theorem post_stagger_cyclic_eq_noncyc (ds : Arr) (dim : String) (data : Arr)
    (ic : Option VertConst) (hd : (dim == "bottom_top") = false) (h0 : head1 ds = none) :
    post_stagger ds dim true data ic = post_stagger ds dim false data ic := by
  simp only [post_stagger, hd, Bool.false_eq_true, if_false, if_true]
  have hhead : head1 (ds ++ [none]) = none := by
    cases ds with
    | nil => rfl
    | cons a t =>
      simp only [head1] at h0
      simpa [head1] using h0
  apply get1_ext
  · simp
  · intro i
    rw [hhead]
    by_cases hL : i = (ds ++ [none]).length - 1
    · rw [get1_set_last, if_pos ⟨hL, by simp⟩]
      by_cases hz : i = 0
      · rw [get1_set_first, if_pos ⟨hz, by simp⟩]
      · rw [get1_set_first_of_ne _ _ _ hz]
        have hL2 : i = ds.length := by
          simp only [List.length_append, List.length_singleton] at hL
          omega
        rw [hL2, get1_append_none, if_neg (by omega)]
    · rw [get1_set_last_of_ne _ _ _ hL]
      by_cases hz : i = 0
      · subst hz
        rw [get1_set_first, if_pos ⟨rfl, by simp⟩]
        rw [get1_append_none]
        split_ifs
        · rw [← head1_eq_get1, h0]
        · rfl
      · rw [get1_set_first_of_ne _ _ _ hz]

/-- Claim C7.  `diff` along a vertical axis (`bottom_top`, `z`, or their
staggered variants) or the `Time` axis always uses the one-sided backward
(non-wrapping) difference, even when called with `cyclic=True`: the result
is independent of the cyclic flag, the lower boundary value of the raw
difference is NaN (it is the first output entry for unstaggered such axes
and is dropped for staggered ones, whose output is the plain backward
difference).  Periodic wrap-around is used only for other axes with
`cyclic=True`, whose first entry is the wrapped difference
`data[0] - data[n-1]`. -/
theorem diff_vertical_time_backward (data : Arr) (dim : String) :
    (vert_time_dims.contains dim = true →
      diff data dim true = diff data dim false
      ∧ (strContainsStag dim = false → get1 (diff data dim true) 0 = none)
      ∧ (strContainsStag dim = true →
          ∀ i, get1 (diff data dim true) i = osub (get1 data (i + 1)) (get1 data i)))
    ∧ (vert_time_dims.contains dim = false → strContainsStag dim = false →
        get1 (diff data dim true) 0
          = osub (get1 data 0) (get1 data (data.length - 1))) := by
  constructor
  · intro hmem
    refine ⟨?_, ?_, ?_⟩
    · simp only [diff, hmem, Bool.true_or, eq_self_iff_true, if_true]
      by_cases hs : strContainsStag dim
      · simp only [hs, if_true]
      · simp only [Bool.not_eq_true] at hs
        simp only [hs, Bool.false_eq_true, if_false]
        rcases Bool.eq_false_or_eq_true (dim == "bottom_top") with hd | hd
        · simp only [post_stagger, hd, if_true]
        · exact post_stagger_cyclic_eq_noncyc _ _ _ _ hd (head1_zip1_osub_shift data)
    · intro hs
      simp only [diff, hmem, Bool.true_or, eq_self_iff_true, if_true, hs,
        Bool.false_eq_true, if_false]
      exact get1_post_stagger_zero_none _ _ _ (head1_zip1_osub_shift data)
    · intro hs i
      simp only [diff, hmem, Bool.true_or, eq_self_iff_true, if_true, hs]
      rw [get1_tail, get1_zip1_osub, get1_shift1]
      by_cases h : i + 1 < data.length
      · rw [if_pos ⟨by omega, h⟩]
        simp
      · rw [if_neg (by omega), get1_of_le_length data (i + 1) (by omega)]
        simp
  · intro hnm hs
    have hd : (dim == "bottom_top") = false := by
      rcases Bool.eq_false_or_eq_true (dim == "bottom_top") with hd | hd
      · exfalso
        have hdim : dim = "bottom_top" := by simpa using hd
        rw [hdim] at hnm
        exact absurd hnm (by decide)
      · exact hd
    simp only [diff, hnm, Bool.false_or, Bool.not_true, Bool.false_eq_true, if_false, hs]
    cases data with
    | nil =>
      rw [get1_post_stagger_zero_none _ _ _ (by rfl)]
      rfl
    | cons a t =>
      simp only [post_stagger, hd, Bool.false_eq_true, if_false, if_true]
      rw [get1_set_last_of_ne _ _ _ (by simp)]
      rw [get1_append_none, if_pos (by simp)]
      rw [get1_zip1_osub, get1_roll1 _ _ (by simp), if_pos rfl]

/-- Claim C7, witness: evaluation on a two-point column for the vertical
axis `z`, its staggered variant, and the horizontal axis `x`. -/
theorem diff_vertical_time_backward_w :
    diff [some (1:ℚ), some 2] dimZ true = diff [some (1:ℚ), some 2] dimZ false
    ∧ get1 (diff [some (1:ℚ), some 2] dimZ true) 0 = none
    ∧ get1 (diff [some (1:ℚ), some 2] dimZS true) 0 = some 1
    ∧ get1 (diff [some (1:ℚ), some 2] dimX true) 0 = some (-1) := by
  have hz := diff_vertical_time_backward [some (1:ℚ), some 2] dimZ
  have hzs := diff_vertical_time_backward [some (1:ℚ), some 2] dimZS
  have hx := diff_vertical_time_backward [some (1:ℚ), some 2] dimX
  refine ⟨(hz.1 rfl).1, (hz.1 rfl).2.1 rfl, ?_, ?_⟩
  · have h := (hzs.1 rfl).2.2 rfl 0
    rw [h]
    norm_num [get1]
  · have h := hx.2 rfl rfl
    rw [h]
    norm_num [get1]


/-- Claim C2 (amended).  For every NaN-free field and every non-vertical
(horizontal) axis, applying `destagger` after `stagger` along that axis
yields at every interior point the second-order smoothed value
`(f[i-1] + 2*f[i] + f[i+1]) / 4`; the original value is reproduced
exactly at those interior points where the discrete second difference
vanishes (for example for fields that are affine in the grid index), but
not in general. -/
theorem destagger_stagger_interior_smoothing
    (f : List ℚ) (dim : String) (FNM FNP : Arr) (cyc : Bool) (ic : Option VertConst)
    (i : ℕ) (hd : (dim == "bottom_top") = false) (h0 : 1 ≤ i) (hi : i + 1 < f.length) :
    get1 (destagger (stagger (f.map some) dim FNM FNP cyc ic)) i
      = some ((f.getD (i - 1) 0 + 2 * f.getD i 0 + f.getD (i + 1) 0) / 4)
    ∧ (f.getD (i - 1) 0 + f.getD (i + 1) 0 = 2 * f.getD i 0 →
       get1 (destagger (stagger (f.map some) dim FNM FNP cyc ic)) i = some (f.getD i 0)) := by
  have hst : (stagger (f.map some) dim FNM FNP cyc ic).length = f.length + 1 := by
    rw [length_stagger _ _ _ _ _ _ hd]
    simp
  have main : get1 (destagger (stagger (f.map some) dim FNM FNP cyc ic)) i
      = some ((f.getD (i - 1) 0 + 2 * f.getD i 0 + f.getD (i + 1) 0) / 4) := by
    simp only [destagger]
    rw [get1_dropLast, if_pos (by simp [hst]; omega)]
    rw [get1_zip1_avg, get1_shiftm1, if_pos (by rw [hst]; omega)]
    rw [get1_stagger_mid _ _ _ _ _ _ i hd (by omega) (by simp; omega)]
    rw [get1_stagger_mid _ _ _ _ _ _ (i + 1) hd (by omega) (by simp; omega)]
    simp only [Nat.add_sub_cancel]
    rw [get1_lift f i, if_pos (show i < f.length by omega)]
    rw [get1_lift f (i - 1), if_pos (show i - 1 < f.length by omega)]
    rw [get1_lift f (i + 1), if_pos (show i + 1 < f.length by omega)]
    simp only [oadd_some, oscale_some]
    refine congrArg some ?_
    ring
  refine ⟨main, fun h => ?_⟩
  rw [main]
  refine congrArg some ?_
  rw [show f.getD (i - 1) 0 + 2 * f.getD i 0 + f.getD (i + 1) 0 = 4 * f.getD i 0 by linarith]
  ring

/-- Claim C2, counterexample: for the single-bump field `[0,0,1,0,0]`,
destaggering the staggered field along the x axis gives `1/2`, not the
original `1`, at the interior point `i = 2`; `destagger` is not an
inverse of `stagger` at interior points. -/
theorem destagger_stagger_not_inverse :
    get1 (destagger (stagger bumpField dimX [] [] false none)) 2 ≠ get1 bumpField 2 := by
  norm_num [destagger, stagger, post_stagger, dimX_beq_bt, bumpField, zip1, roll1,
    shiftm1, shift1, last1, set_first, set_last, head1, get1, List.dropLast, oadd, oscale]

/-- Claim C2, witness for the amended statement: evaluation at the bump
field and the interior point `i = 2`. -/
theorem destagger_stagger_interior_smoothing_w :
    get1 (destagger (stagger ([(0:ℚ), 0, 1, 0, 0].map some) dimX [] [] false none)) 2
      = some ((1:ℚ)/2) := by
  have h := destagger_stagger_interior_smoothing [(0:ℚ), 0, 1, 0, 0] dimX [] [] false none 2
    rfl (by norm_num) (by norm_num)
  rw [h.1]
  norm_num

/-! ## Configuration and control-flow properties -/

/-- Claim C5.  Any budget method whose parsed configuration selects both
`dz_out_x` and `dz_out_z`, or selects either of them without `cartesian`,
makes the per-method body of `calc_tendencies_core` raise a ValueError:
`run_budget_method` returns an error, so the tendency computation for
that method is never reached. -/
theorem dz_out_config_error (m : String) (c : BudgetConfig) (bm : String)
    (hp : get_budget_method m = Except.ok (c, bm))
    (hc : (c.dz_out_x && c.dz_out_z) = true
      ∨ ((c.dz_out_x || c.dz_out_z) = true ∧ c.cartesian = false)) :
    ∃ e, run_budget_method m = Except.error e := by
  rcases hc with h | ⟨h1, h2⟩
  · have h' : c.dz_out_x = true ∧ c.dz_out_z = true := by simpa using h
    obtain ⟨hx, hz⟩ := h'
    rcases Bool.eq_false_or_eq_true c.cartesian with hcart | hcart
    · refine ⟨errDzBoth, ?_⟩
      unfold run_budget_method
      rw [hp]
      simp [hx, hz, hcart]
    · refine ⟨errDzCart, ?_⟩
      unfold run_budget_method
      rw [hp]
      simp [hx, hz, hcart]
  · refine ⟨errDzCart, ?_⟩
    unfold run_budget_method
    rw [hp]
    simp [h1, h2]

/-- Claim C5, witness: the method string selecting both dz_out variants
is rejected. -/
theorem dz_out_config_error_w :
    ∃ e, run_budget_method methodDzBoth = Except.error e :=
  dz_out_config_error methodDzBoth
    { cartesian := false, dz_out_x := true, dz_out_z := true, force_2nd_adv := false }
    methodDzBoth rfl (Or.inl rfl)

/-- Claim C9.  When a tile is processed, the per-tile computation of
`calc_tendencies_core` runs with the cyclic flag of every dimension that
appears in the tile mapping forced to `False`, even if the full domain is
periodic there; dimensions not in the tile keep their flag. -/
theorem tile_disables_cyclic (cyclic : List (String × Bool)) (tile : List String)
    (d : String) :
    (core_effective_cyclic cyclic (some tile)).lookup d
      = (cyclic.lookup d).map (fun b => b && !(tile.contains d)) := by
  show (update_cyclic cyclic tile).lookup d = _
  induction cyclic with
  | nil => rfl
  | cons p rest ih =>
    obtain ⟨k, v⟩ := p
    by_cases hk : (d == k) = true
    · have hdk : d = k := by simpa using hk
      subst hdk
      simp [update_cyclic, List.lookup]
    · simp only [update_cyclic, List.map_cons, List.lookup, hk] at ih ⊢
      exact ih

/-- Claim C8, counterexample: with two worker processes, chunking
disabled, and complete postprocessed output on disk under `skip_exist`,
`calc_tendencies` returns the loaded output without raising any error --
the nproc check of line 1861 is never reached on the skip path. -/
theorem nproc_skip_no_error :
    calc_tendencies_model [] true true false [] 2 = Except.ok RunOutcome.loadedExisting := rfl

/-- Claim C8 (amended).  Whenever the run is not skipped because complete
postprocessed output already exists (`skip_exist` and all files present),
a process count greater than one with chunking disabled makes
`calc_tendencies` raise the ValueError of tools.py line 1862 before any
computation; on the skip path the stored output is loaded and returned
without error even when nproc > 1. -/
theorem nproc_without_chunking_error (cyclic : List (String × Bool))
    (skip_exist files_exist : Bool) (tiles : List (List String)) (nproc : ℕ)
    (bms : StrOrList) (hs : (skip_exist && files_exist) = false) (hn : 1 < nproc) :
    calc_tendencies_model cyclic skip_exist files_exist false tiles nproc bms
      = Except.error errNproc := by
  unfold calc_tendencies_model
  rw [hs]
  simp only [Bool.false_eq_true, if_false]
  rw [if_pos hn]

/-- Claim C8, witness. -/
theorem nproc_without_chunking_error_w :
    calc_tendencies_model [] false false false [] 2 (StrOrList.str default_budget_methods)
      = Except.error errNproc :=
  nproc_without_chunking_error [] false false [] 2 (StrOrList.str default_budget_methods)
    rfl (by norm_num)

/-- Claim C10, counterexample: with complete postprocessed output on disk
and `skip_exist` set, `calc_tendencies_core` called with the default
`budget_methods` returns the loaded output -- no ValueError is raised, so
the default does not always abort. -/
theorem default_budget_method_skip_no_error :
    calc_tendencies_core_model [] none true true
      = Except.ok (false, [], CoreOutcome.loaded) := rfl

/-- Claim C10 (amended).  Whenever `calc_tendencies_core` actually
processes a budget method (the run is not skipped because of existing
output), the default `budget_methods` value -- the misspelled string
`"castesian"` -- aborts with the ValueError `Undefined keys: castesian`
before any tendency is computed; the default never enables Cartesian
corrections (the `cartesian` flag of tools.py line 1935 is false); and
`calc_tendencies` without chunking on a single process propagates the
same error. -/
theorem default_budget_method_undefined (cyclic : List (String × Bool))
    (tile : Option (List String)) (skip_exist files_exist : Bool)
    (h : (skip_exist && files_exist) = false) :
    calc_tendencies_core_model cyclic tile skip_exist files_exist
        = Except.error errCastesian
    ∧ core_cartesian_flag (StrOrList.str default_budget_methods) = false
    ∧ calc_tendencies_model cyclic skip_exist files_exist false [] 1
        = Except.error errCastesian := by
  have hrun : List.mapM run_budget_method (make_list (StrOrList.str default_budget_methods))
      = (Except.error errCastesian : Except String (List (BudgetConfig × String))) := rfl
  refine ⟨?_, rfl, ?_⟩
  · unfold calc_tendencies_core_model
    rw [h]
    simp only [Bool.false_eq_true, if_false, hrun]
  · unfold calc_tendencies_model
    rw [h]
    simp only [Bool.false_eq_true, if_false]
    rw [if_neg (by norm_num)]
    unfold calc_tendencies_core_model
    rw [h]
    simp only [Bool.false_eq_true, if_false, hrun]

/-- Claim C10, witness for the amended statement. -/
theorem default_budget_method_undefined_w :
    calc_tendencies_core_model [] none false false = Except.error errCastesian :=
  (default_budget_method_undefined [] none false false rfl).1

theorem getD_map_range {α : Type} (f : ℕ → α) (k i : ℕ) (d : α) (h : i < k) :
    ((List.range k).map f).getD i d = f i := by
  rw [List.getD_eq_getElem?_getD, List.getElem?_map, List.getElem?_range h]
  rfl

/-- Claim C6.  Per-axis tiling of `create_tiles`: an axis whose partition
yields a single chunk produces no slices (and is dropped from the chunk
set with a warning, third conjunct); otherwise every tile's slice starts
at the chunk boundary minus one halo point (except the first tile, which
starts at the domain edge with no halo) and stops at the next chunk
boundary plus 1 extra grid point, or plus 2 for the staggered variant of
the axis (except the last tile, which stops at the domain edge with no
halo). -/
theorem create_tiles_halo_spec :
    (∀ n size : ℕ, 0 < size → (tile_bounds n size).length = 1 →
      tile_slices n size = none)
    ∧ (∀ n size ts, tile_slices n size = some ts →
        ts.length = (tile_bounds n size).length
        ∧ ∀ i, i < ts.length →
            ((ts.getD i tsDefault).1.start
                = if i = 0 then none else some ((tile_bounds n size).getD i 0 - 1))
            ∧ ((ts.getD i tsDefault).2.start
                = if i = 0 then none else some ((tile_bounds n size).getD i 0 - 1))
            ∧ ((ts.getD i tsDefault).1.stop
                = if i = ts.length - 1 then none
                  else some ((tile_bounds n size).getD (i + 1) 0 + 1))
            ∧ ((ts.getD i tsDefault).2.stop
                = if i = ts.length - 1 then none
                  else some ((tile_bounds n size).getD (i + 1) 0 + 2)))
    ∧ (∀ (datDims : List String) (datLen : String → ℕ) (dim : String) (size : ℕ)
        (rest : List (String × ℕ)),
        datDims.contains dim = true → (tile_bounds (datLen dim) size).length = 1 →
        create_tiles datDims datLen ((dim, size) :: rest)
          = (create_tiles datDims datLen rest).map (fun r => (r.1, r.2.1, dim :: r.2.2))) := by
  refine ⟨fun n size _ h1 => ?_, fun n size ts hts => ?_, ?_⟩
  · simp [tile_slices, h1]
  · simp only [tile_slices] at hts
    by_cases h1 : ((tile_bounds n size).length == 1) = true
    · rw [if_pos h1] at hts
      exact absurd hts (by simp)
    · rw [if_neg h1] at hts
      have hts' := Option.some.inj hts
      rw [← hts']
      constructor
      · simp
      · intro i hi
        simp only [List.length_map, List.length_range] at hi
        rw [getD_map_range _ _ _ _ hi]
        simp only [List.length_map, List.length_range]
        refine ⟨?_, ?_, ?_, ?_⟩ <;> simp [beq_iff_eq]
  · intro datDims datLen dim size rest hcont h1
    have hnone : tile_slices (datLen dim) size = none := by
      simp [tile_slices, h1]
    simp only [create_tiles, hcont, Bool.not_true, Bool.false_eq_true, if_false, hnone]
    cases hrest : create_tiles datDims datLen rest <;> simp [Except.map]

/-- Claim C6, witness: a five-point axis with chunk size two yields three
tiles with the expected halo slices, and a two-point axis with chunk size
five is dropped with a warning. -/
theorem create_tiles_halo_spec_w :
    tile_slices 2 5 = none
    ∧ (∃ ts, tile_slices 5 2 = some ts
        ∧ ts.length = 3
        ∧ (ts.getD 0 tsDefault).1.start = none
        ∧ (ts.getD 1 tsDefault).1.start = some 1
        ∧ (ts.getD 1 tsDefault).1.stop = some 5
        ∧ (ts.getD 1 tsDefault).2.stop = some 6
        ∧ (ts.getD 2 tsDefault).1.stop = none)
    ∧ create_tiles [dimX] (fun _ => 2) [(dimX, 5)]
        = (create_tiles [dimX] (fun _ => 2) []).map (fun r => (r.1, r.2.1, dimX :: r.2.2)) := by
  have h := create_tiles_halo_spec
  have hts : tile_slices 5 2
      = some [(TSlice.mk none (some 3), TSlice.mk none (some 4)),
              (TSlice.mk (some 1) (some 5), TSlice.mk (some 1) (some 6)),
              (TSlice.mk (some 3) none, TSlice.mk (some 3) none)] := by decide
  have h2 := h.2.1 5 2 _ hts
  refine ⟨h.1 2 5 (by norm_num) (by decide),
    ⟨_, hts, h2.1.trans (by decide),
      ((h2.2 0 (by decide)).1).trans (by decide),
      ((h2.2 1 (by decide)).1).trans (by decide),
      ((h2.2 1 (by decide)).2.2.1).trans (by decide),
      ((h2.2 1 (by decide)).2.2.2).trans (by decide),
      ((h2.2 2 (by decide)).2.2.1).trans (by decide)⟩,
    h.2.2 [dimX] (fun _ => 2) dimX 5 [] rfl (by decide)⟩

/-! ## Advective decomposition properties -/

theorem scs_bt : strContainsStag dimBT = false := rfl

theorem scs_bts : strContainsStag dimBTS = true := rfl

theorem vtd_bt : vert_time_dims.contains dimBT = true := rfl

theorem vtd_bts : vert_time_dims.contains dimBTS = true := rfl

theorem scs_x_stag : strContainsStag ("x_stag") = true := rfl

theorem scs_y_stag : strContainsStag ("y_stag") = true := rfl

theorem vtd_x_stag : vert_time_dims.contains ("x_stag") = false := rfl

theorem vtd_y_stag : vert_time_dims.contains ("y_stag") = false := rfl

theorem x_append_stag : ("x" ++ "_stag" : String) = "x_stag" := rfl

theorem y_append_stag : ("y" ++ "_stag" : String) = "y_stag" := rfl

/-- Claim C1 (amended).  In `adv_tend`, when no explicit time-resolved
turbulent fluxes are present upstream, the resolved-turbulent component
of both the advective flux and the advective tendency is recovered as the
residual: exactly the resolved-total component minus the mean component,
in every direction.  When explicit turbulent fluxes were supplied
upstream, the returned turbulent flux component is the supplied flux
itself, and its tendency is computed from that flux; neither is forced to
equal total minus mean. -/
theorem adv_tend_turbulent_residual_identity (inp : AdvInputs) :
    (inp.trb = none →
      (adv_tend inp).1.trb_r = tripleSub (adv_tend inp).1.adv_r ((adv_tend inp).1.mean)
      ∧ (adv_tend inp).2.trb_r
          = tripleSub ((adv_tend inp).2.adv_r) ((adv_tend inp).2.mean))
    ∧ (∀ t, inp.trb = some t →
        (adv_tend inp).1.trb_r = t
        ∧ (adv_tend inp).2.trb_r = adv_comp_tend inp t) := by
  constructor
  · intro h
    simp [adv_tend, h]
  · intro t h
    simp [adv_tend, h]

/-- Claim C1, witness for the amended statement: the residual identity at
a concrete input without explicit turbulent fluxes. -/
theorem adv_tend_turbulent_residual_identity_w :
    (adv_tend { ceInp with trb := none }).1.trb_r
        = tripleSub (adv_tend { ceInp with trb := none }).1.adv_r
            ((adv_tend { ceInp with trb := none }).1.mean)
    ∧ (adv_tend { ceInp with trb := none }).2.trb_r
        = tripleSub ((adv_tend { ceInp with trb := none }).2.adv_r)
            ((adv_tend { ceInp with trb := none }).2.mean) :=
  (adv_tend_turbulent_residual_identity { ceInp with trb := none }).1 rfl

/-- Claim C1, counterexample: when explicitly time-resolved turbulent
fluxes are supplied upstream, the resolved-turbulent component returned
by `adv_tend` is the supplied flux, not the residual total minus mean.
At `ceInp` the supplied vertical turbulent flux `[1, 7]` differs from the
residual `[4, 4]`, and the turbulent vertical tendency differs from the
residual of the total and mean tendencies. -/
theorem adv_tend_explicit_trb_not_residual :
    (adv_tend ceInp).1.trb_r.Z
        ≠ zip1 osub ((adv_tend ceInp).1.adv_r.Z) ((adv_tend ceInp).1.mean.Z)
    ∧ (adv_tend ceInp).2.trb_r.Z
        ≠ zip1 osub ((adv_tend ceInp).2.adv_r.Z) ((adv_tend ceInp).2.mean.Z) := by
  norm_num [adv_tend, adv_total_flux, adv_mean_flux, adv_comp_tend, hor_tend, tripleSub,
    diff, post_stagger, zip1, roll1, shift1, shiftm1, last1, last2, set_first, set_last,
    head1, amap, aneg, adivS, get1, ceInp, hxce, hyce, a3one, gq, zeroRow0, zero_arr,
    oadd, osub, omul, odiv, oscale, oneg, scs_bts, vtd_bts, scs_x_stag, scs_y_stag,
    vtd_x_stag, vtd_y_stag, x_append_stag, y_append_stag, dimBT_beq_bt, scs_bt, vtd_bt]

theorem get1_aneg (l : Arr) (i : ℕ) : get1 (aneg l) i = oneg (get1 l i) :=
  get1_amap oneg rfl l i

theorem length_aneg (l : Arr) : (aneg l).length = l.length := List.length_map l oneg

theorem adv_comp_tend_w_zraw_length (inp : AdvInputs) (flux : Triple)
    (hlen : flux.Z.length = inp.rhod8z.length)
    (hDN : inp.DN.length = inp.rhod8z.length + 1) :
    (zip1 odiv (aneg (diff (zip1 omul inp.rhod8z flux.Z) dimBT false)) inp.DN).length
      = inp.rhod8z.length + 1 := by
  rw [length_zip1, length_aneg, length_diff_unstag _ _ _ scs_bt, length_zip1, hlen, hDN]
  simp

/-- Surface closure of the vertical-velocity budget: the vertical
tendency computed from any flux component is the literal zero assigned at
`bottom_top_stag = 0`, scaled by `-g` and divided by the dry air mass. -/
theorem adv_comp_tend_w_surface (inp : AdvInputs) (flux : Triple)
    (hW : inp.isW = true) (hm : 0 < inp.rhod8z.length)
    (hlen : flux.Z.length = inp.rhod8z.length)
    (hDN : inp.DN.length = inp.rhod8z.length + 1) :
    get1 ((adv_comp_tend inp flux).Z) 0 = odiv (some 0) (get1 inp.mu_stag_Z 0) := by
  have hz := adv_comp_tend_w_zraw_length inp flux hlen hDN
  simp only [adv_comp_tend, hW, if_true]
  rw [get1_zip1_odiv, get1_amap _ (by simp)]
  rw [get1_set_last_of_ne _ _ _ (by rw [length_set_first, hz]; omega)]
  rw [get1_set_first, if_pos ⟨rfl, by intro hc; rw [hc] at hz; simp at hz⟩]
  simp

/-- Top closure of the vertical-velocity budget: the vertical tendency
computed from any flux component carries, at the model top, the assigned
value `2 * fz[-1] / DN[-2]` scaled by `-g` and divided by the dry air
mass. -/
theorem adv_comp_tend_w_top (inp : AdvInputs) (flux : Triple)
    (hW : inp.isW = true) (hm : 0 < inp.rhod8z.length)
    (hlen : flux.Z.length = inp.rhod8z.length)
    (hDN : inp.DN.length = inp.rhod8z.length + 1) :
    get1 ((adv_comp_tend inp flux).Z) inp.rhod8z.length = w_top_value inp flux.Z := by
  have hz := adv_comp_tend_w_zraw_length inp flux hlen hDN
  simp only [adv_comp_tend, hW, if_true]
  rw [get1_zip1_odiv, get1_amap _ (by simp)]
  rw [get1_set_last, if_pos ⟨by rw [length_set_first, hz]; omega,
    set_first_ne_nil _ _ (by intro hc; rw [hc] at hz; simp at hz)⟩]
  unfold w_top_value
  rw [last1_eq_get1, length_zip1, hlen]
  rw [show min inp.rhod8z.length inp.rhod8z.length - 1 = inp.rhod8z.length - 1 by simp]
  rw [get1_zip1_omul]

theorem w_top_value_sub (inp : AdvInputs) (a b : Arr) :
    osub (w_top_value inp a) (w_top_value inp b) = w_top_value inp (zip1 osub a b) := by
  unfold w_top_value
  rw [get1_zip1_osub]
  rcases get1 inp.rhod8z (inp.rhod8z.length - 1) with _ | r <;>
    rcases get1 a (inp.rhod8z.length - 1) with _ | x <;>
    rcases get1 b (inp.rhod8z.length - 1) with _ | y <;>
    rcases last2 inp.DN with _ | dd <;>
    rcases get1 inp.mu_stag_Z inp.rhod8z.length with _ | mm <;>
    simp [oscale, omul, odiv, osub]
  ring

/-- Claim C4 (amended).  In the vertical-velocity budget (`isW`), every
decomposition component of the vertical advective tendency returned by
`adv_tend` is set to exactly zero at the surface (the value is the
assigned zero divided by the dry air mass, hence `0` whenever the latter
is defined), and at the model top to twice the topmost vertical flux
`fz[-1]` divided by the penultimate level spacing `DN[-2]`, additionally
multiplied by `-g` and divided by the topmost dry air mass -- the common
normalization applied to all vertical tendencies (`w_top_value`).  The
residual turbulent component obeys the same closure with the residual
flux. -/
theorem w_vertical_tendency_boundary (inp : AdvInputs) (flux : Triple)
    (hW : inp.isW = true) (hm : 0 < inp.rhod8z.length)
    (hlen : flux.Z.length = inp.rhod8z.length)
    (hDN : inp.DN.length = inp.rhod8z.length + 1)
    (hlen2 : (adv_total_flux inp).Z.length = inp.rhod8z.length)
    (hlen3 : (adv_mean_flux inp).Z.length = inp.rhod8z.length) :
    (get1 ((adv_comp_tend inp flux).Z) 0 = odiv (some 0) (get1 inp.mu_stag_Z 0)
      ∧ get1 ((adv_comp_tend inp flux).Z) inp.rhod8z.length = w_top_value inp flux.Z)
    ∧ (∀ u, get1 inp.mu_stag_Z 0 = some u →
        get1 ((adv_comp_tend inp flux).Z) 0 = some 0)
    ∧ (inp.trb = none →
        get1 ((adv_tend inp).2.trb_r.Z) 0 = odiv (some 0) (get1 inp.mu_stag_Z 0)
        ∧ get1 ((adv_tend inp).2.trb_r.Z) inp.rhod8z.length
            = w_top_value inp (zip1 osub (adv_total_flux inp).Z (adv_mean_flux inp).Z)) := by
  refine ⟨⟨adv_comp_tend_w_surface inp flux hW hm hlen hDN,
    adv_comp_tend_w_top inp flux hW hm hlen hDN⟩, fun u hu => ?_, fun ht => ?_⟩
  · rw [adv_comp_tend_w_surface inp flux hW hm hlen hDN, hu]
    norm_num
  · have htrb : (adv_tend inp).2.trb_r
        = tripleSub (adv_comp_tend inp (adv_total_flux inp))
            (adv_comp_tend inp (adv_mean_flux inp)) := by
      simp [adv_tend, ht]
    rw [htrb]
    constructor
    · show get1 (zip1 osub _ _) 0 = _
      rw [get1_zip1_osub,
        adv_comp_tend_w_surface inp (adv_total_flux inp) hW hm hlen2 hDN,
        adv_comp_tend_w_surface inp (adv_mean_flux inp) hW hm hlen3 hDN]
      rcases get1 inp.mu_stag_Z 0 with _ | u <;> simp [odiv, osub]
    · show get1 (zip1 osub _ _) inp.rhod8z.length = _
      rw [get1_zip1_osub,
        adv_comp_tend_w_top inp (adv_total_flux inp) hW hm hlen2 hDN,
        adv_comp_tend_w_top inp (adv_mean_flux inp) hW hm hlen3 hDN,
        w_top_value_sub]

/-- Claim C4, witness for the amended statement. -/
theorem w_vertical_tendency_boundary_w :
    get1 ((adv_comp_tend ceW ceW.tot_flux).Z) 0 = odiv (some 0) (get1 ceW.mu_stag_Z 0)
    ∧ get1 ((adv_comp_tend ceW ceW.tot_flux).Z) ceW.rhod8z.length
        = w_top_value ceW ceW.tot_flux.Z :=
  (w_vertical_tendency_boundary ceW ceW.tot_flux rfl (by decide) rfl rfl rfl rfl).1

/-- Claim C4, counterexample: at `ceW` the topmost vertical flux is `1`
and `DN[-2] = 1`, so the claim predicts the top tendency `2`; the value
returned by `adv_tend` is `2 * (-g) / mu = -981/50`, which differs. -/
theorem w_vertical_tendency_top_scaled :
    get1 ((adv_tend ceW).2.adv_r.Z) 1 = some (-(981/50))
    ∧ odiv (oscale 2 (get1 (zip1 omul ceW.rhod8z (adv_total_flux ceW).Z) 0))
        (get1 ceW.DN 0) = some 2
    ∧ (some (-(981/50)) : F) ≠ (some 2 : F) := by
  norm_num [adv_tend, adv_total_flux, adv_mean_flux, adv_comp_tend, hor_tend, tripleSub,
    diff, post_stagger, zip1, roll1, shift1, shiftm1, last1, last2, set_first, set_last,
    head1, amap, aneg, adivS, get1, ceW, hxe, hye, gq, zeroRow0, zero_arr,
    oadd, osub, omul, odiv, oscale, oneg, scs_bt, vtd_bt, dimBT_beq_bt, scs_bts, vtd_bts,
    scs_x_stag, scs_y_stag, vtd_x_stag, vtd_y_stag, x_append_stag, y_append_stag]
